import Mathlib

/-!
Shallow embedding of the rectangle-packing core of `tex_atlas`
(`src/atlas.rs`), together with theorems settling the specification
claims about it.

Modelling conventions:
* Rust `u32` values are modelled as `Nat`.  All additions performed by the
  algorithm are on coordinates of sub-rectangles of the initial canvas, so
  they never exceed `u32` range for a `u32` canvas; `u32` subtraction is
  guarded by `fit_in` and shown exact (see `Rect.insertChecked`).  The one
  place where `u32` wrap-around is observable for in-range inputs is the
  sort key `size.height * size.width` in `AtlasBuilder::build`, which is
  therefore modelled with an explicit `% 2^32` (`Size.area32`).
* `fn insert(&mut self, size: Size) -> Option<(Rect, Option<Rect>)>` is
  state-passing: the Lean function returns the mutated `self` paired with
  the Rust return value.
* `HashMap<String, Rect>` is modelled as an association list with unique
  keys; `mapInsert` realises `HashMap::insert` (last write wins).  The only
  observations the program makes of the map are key lookup and a fold of
  `Size.max` over the values, and the latter is invariant under permutation
  of the association list (the fold function is right-commutative), so the
  list order is irrelevant, matching the unordered `HashMap`.
* Rust's `sort_by_key(|(_name, size)| Reverse(size.height * size.width))`
  is a stable sort, descending in the key.  A stable sort is uniquely
  determined extensionally by its comparison key, so it is embedded as the
  structurally recursive stable insertion sort `sortImages`, and the
  characterising properties (permutation, descending order in the key,
  stability) are proved of it.
-/

/-- `Size` from `src/atlas.rs`: `{ width: u32, height: u32 }`. -/
structure Size where
  width : Nat
  height : Nat
deriving DecidableEq, Repr

/-- `Rect` from `src/atlas.rs`: `{ left: u32, top: u32, size: Size }`. -/
structure Rect where
  left : Nat
  top : Nat
  size : Size
deriving DecidableEq, Repr

/-- `Size::zero`. -/
def Size.zero : Size := ⟨0, 0⟩

/-- `Size::fit_in`: `self.width <= size.width && self.height <= size.height`. -/
def Size.fit_in (self size : Size) : Bool :=
  decide (self.width ≤ size.width) && decide (self.height ≤ size.height)

/-- `Size::max`: component-wise maximum. -/
def Size.max (self other : Size) : Size :=
  ⟨Nat.max self.width other.width, Nat.max self.height other.height⟩

/-- Mathematical area of a `Size` (the spec's `width*height`). -/
def Size.area (s : Size) : Nat := s.width * s.height

/-- The `u32` sort key `size.height * size.width` computed by
`AtlasBuilder::build`: `u32` multiplication wraps modulo `2^32`. -/
def Size.area32 (s : Size) : Nat := s.height * s.width % 4294967296

/-- `Rect::insert`, state-passing: the first component is the mutated
`self`, the second is the Rust return value
`Option<(placed, Option<leftover>)>`.  In the `else` branch the Rust
function returns `None` without touching `self`. -/
def Rect.insert (self : Rect) (size : Size) : Rect × Option (Rect × Option Rect) :=
  if size.fit_in self.size then
    let r : Rect := ⟨self.left, self.top, size⟩
    if size.width = self.size.width then
      (⟨self.left, self.top + size.height, ⟨self.size.width, self.size.height - size.height⟩⟩,
       some (r, none))
    else if size.height = self.size.height then
      (⟨self.left + size.width, self.top, ⟨self.size.width - size.width, self.size.height⟩⟩,
       some (r, none))
    else
      let rect : Rect := ⟨self.left + size.width, self.top,
        ⟨self.size.width - size.width, size.height⟩⟩
      (⟨self.left, self.top + size.height, ⟨self.size.width, self.size.height - size.height⟩⟩,
       some (r, some rect))
  else (self, none)

/-- `Rect::insert` with each `u32` subtraction modelled as Rust checked
subtraction (`none` = the debug-mode underflow panic), to settle the
claim that no subtraction can underflow when `size` fits. -/
def Rect.insertChecked (self : Rect) (size : Size) :
    Option (Rect × Option (Rect × Option Rect)) :=
  if size.fit_in self.size then
    let r : Rect := ⟨self.left, self.top, size⟩
    if size.width = self.size.width then
      match (if size.height ≤ self.size.height then some (self.size.height - size.height) else none) with
      | some nh => some (⟨self.left, self.top + size.height, ⟨self.size.width, nh⟩⟩, some (r, none))
      | none => none
    else if size.height = self.size.height then
      match (if size.width ≤ self.size.width then some (self.size.width - size.width) else none) with
      | some nw => some (⟨self.left + size.width, self.top, ⟨nw, self.size.height⟩⟩, some (r, none))
      | none => none
    else
      match (if size.width ≤ self.size.width then some (self.size.width - size.width) else none),
            (if size.height ≤ self.size.height then some (self.size.height - size.height) else none) with
      | some lw, some nh =>
          some (⟨self.left, self.top + size.height, ⟨self.size.width, nh⟩⟩,
                some (r, some ⟨self.left + size.width, self.top, ⟨lw, size.height⟩⟩))
      | _, _ => none
  else some (self, none)

/-- `Rect::bound_size`: `{ left + width, top + height }`. -/
def Rect.bound_size (self : Rect) : Size :=
  ⟨self.left + self.size.width, self.top + self.size.height⟩

/-- Unfolding lemma for `fit_in`. -/
theorem Size.fit_in_iff (a b : Size) :
    a.fit_in b = true ↔ a.width ≤ b.width ∧ a.height ≤ b.height := by
  simp [Size.fit_in]

/-- C9: `Size.fit_in` is reflexive, and transitive: if `a` fits in `b` and
`b` fits in `c` then `a` fits in `c`. -/
theorem Size.fit_in_refl_trans :
    (∀ a : Size, a.fit_in a = true) ∧
    (∀ a b c : Size, a.fit_in b = true → b.fit_in c = true → a.fit_in c = true) := by
  constructor
  · intro a
    simp [Size.fit_in_iff]
  · intro a b c hab hbc
    rw [Size.fit_in_iff] at *
    omega

/-- Witness for `Size.fit_in_refl_trans` at concrete sizes. -/
theorem Size.fit_in_refl_trans_witness :
    Size.fit_in ⟨1, 2⟩ ⟨3, 4⟩ = true ∧ Size.fit_in ⟨3, 4⟩ ⟨5, 6⟩ = true ∧
    Size.fit_in ⟨1, 2⟩ ⟨5, 6⟩ = true :=
  ⟨by decide, by decide, Size.fit_in_refl_trans.2 ⟨1, 2⟩ ⟨3, 4⟩ ⟨5, 6⟩ (by decide) (by decide)⟩

/-- C1: when `size` fits in `space`, `Rect.insert` places `size` at
`space`'s top-left corner, and the split follows the three cases in
order: full-width match shrinks `space` to the strip below with no
leftover; otherwise full-height match shrinks `space` to the region to the
right with no leftover; otherwise a leftover
`{space.left + size.width, space.top, space.width - size.width, size.height}`
is produced and `space` shrinks to the strip below. -/
theorem Rect.insert_cases (space : Rect) (size : Size)
    (h : size.fit_in space.size = true) :
    (size.width = space.size.width →
      space.insert size =
        (⟨space.left, space.top + size.height,
            ⟨space.size.width, space.size.height - size.height⟩⟩,
         some (⟨space.left, space.top, size⟩, none))) ∧
    (size.width ≠ space.size.width → size.height = space.size.height →
      space.insert size =
        (⟨space.left + size.width, space.top,
            ⟨space.size.width - size.width, space.size.height⟩⟩,
         some (⟨space.left, space.top, size⟩, none))) ∧
    (size.width ≠ space.size.width → size.height ≠ space.size.height →
      space.insert size =
        (⟨space.left, space.top + size.height,
            ⟨space.size.width, space.size.height - size.height⟩⟩,
         some (⟨space.left, space.top, size⟩,
               some ⟨space.left + size.width, space.top,
                  ⟨space.size.width - size.width, size.height⟩⟩))) := by
  refine ⟨?_, ?_, ?_⟩
  · intro hw
    rw [Rect.insert, if_pos h, if_pos hw]
  · intro hw hh
    rw [Rect.insert, if_pos h, if_neg hw, if_pos hh]
  · intro hw hh
    rw [Rect.insert, if_pos h, if_neg hw, if_neg hh]

/-- Witness for `Rect.insert_cases`: the general (guillotine) case at a
concrete input. -/
theorem Rect.insert_cases_witness :
    Rect.insert ⟨0, 0, ⟨10, 10⟩⟩ ⟨3, 4⟩ =
      (⟨0, 4, ⟨10, 6⟩⟩, some (⟨0, 0, ⟨3, 4⟩⟩, some ⟨3, 0, ⟨7, 4⟩⟩)) :=
  (Rect.insert_cases ⟨0, 0, ⟨10, 10⟩⟩ ⟨3, 4⟩ (by decide)).2.2 (by decide) (by decide)

/-- C3: `Rect.insert` returns `none` exactly when `size` does not fit in
`space` per `fit_in`, and in that case `space` is returned unmodified. -/
theorem Rect.insert_none_iff (space : Rect) (size : Size) :
    ((space.insert size).2 = none ↔ size.fit_in space.size = false) ∧
    ((space.insert size).2 = none → (space.insert size).1 = space) := by
  constructor
  · rw [Rect.insert]
    split
    · next hfit =>
      constructor
      · intro hnone
        split at hnone <;> simp_all
        split at hnone <;> simp_all
      · intro hfalse
        simp_all
    · next hfit =>
      simp_all
  · intro hnone
    by_cases hfit : size.fit_in space.size = true
    · exfalso
      rw [Rect.insert, if_pos hfit] at hnone
      split at hnone <;> simp_all
      split at hnone <;> simp_all
    · rw [Rect.insert, if_neg hfit]

/-- Witness for `Rect.insert_none_iff`: a size that does not fit leaves the
space unchanged. -/
theorem Rect.insert_none_iff_witness :
    (Rect.insert ⟨0, 0, ⟨5, 5⟩⟩ ⟨6, 1⟩).1 = ⟨0, 0, ⟨5, 5⟩⟩ :=
  (Rect.insert_none_iff ⟨0, 0, ⟨5, 5⟩⟩ ⟨6, 1⟩).2 (by decide)

/-- C2: a successful split conserves area: placed + leftover (0 when
absent) + shrunk space = original space, and the placed rectangle has
exactly the requested area. -/
theorem Rect.insert_conservation (space space' placed : Rect) (lo : Option Rect)
    (size : Size) (h : space.insert size = (space', some (placed, lo))) :
    Size.area placed.size + (lo.map fun l => Size.area l.size).getD 0 +
        Size.area space'.size = Size.area space.size ∧
    Size.area placed.size = Size.area size := by
  by_cases hfit : size.fit_in space.size = true
  · obtain ⟨hw, hh⟩ := (Size.fit_in_iff _ _).1 hfit
    by_cases hweq : size.width = space.size.width
    · rw [Rect.insert, if_pos hfit, if_pos hweq] at h
      have h' := h.symm
      simp only [Prod.mk.injEq, Option.some.injEq] at h'
      obtain ⟨h1, h2, h3⟩ := h'
      subst h1; subst h2; subst h3
      refine ⟨?_, rfl⟩
      simp [Size.area, hweq]
      zify [hh]
      ring
    · by_cases hheq : size.height = space.size.height
      · rw [Rect.insert, if_pos hfit, if_neg hweq, if_pos hheq] at h
        have h' := h.symm
        simp only [Prod.mk.injEq, Option.some.injEq] at h'
        obtain ⟨h1, h2, h3⟩ := h'
        subst h1; subst h2; subst h3
        refine ⟨?_, rfl⟩
        simp [Size.area, hheq]
        zify [hw]
        ring
      · rw [Rect.insert, if_pos hfit, if_neg hweq, if_neg hheq] at h
        have h' := h.symm
        simp only [Prod.mk.injEq, Option.some.injEq] at h'
        obtain ⟨h1, h2, h3⟩ := h'
        subst h1; subst h2; subst h3
        refine ⟨?_, rfl⟩
        simp [Size.area]
        zify [hw, hh]
        ring
  · rw [Rect.insert, if_neg hfit] at h
    simp at h

/-- Witness for `Rect.insert_conservation` at a concrete split. -/
theorem Rect.insert_conservation_witness :
    Size.area ⟨3, 4⟩ + (Option.map (fun l => Size.area l.size)
        (some (⟨3, 0, ⟨7, 4⟩⟩ : Rect))).getD 0 + Size.area ⟨10, 6⟩ =
      Size.area ⟨10, 10⟩ ∧
    Size.area ⟨3, 4⟩ = Size.area ⟨3, 4⟩ :=
  Rect.insert_conservation ⟨0, 0, ⟨10, 10⟩⟩ ⟨0, 4, ⟨10, 6⟩⟩ ⟨0, 0, ⟨3, 4⟩⟩
    (some ⟨3, 0, ⟨7, 4⟩⟩) ⟨3, 4⟩ (by decide)

/-- C10: under the `fit_in` precondition every `u32` subtraction in
`Rect.insert` is exact, so the checked-arithmetic version never hits the
underflow panic and agrees with the total model. -/
theorem Rect.insertChecked_total (self : Rect) (size : Size)
    (h : size.fit_in self.size = true) :
    self.insertChecked size = some (self.insert size) := by
  obtain ⟨hw, hh⟩ := (Size.fit_in_iff _ _).1 h
  simp only [Rect.insertChecked, Rect.insert, if_pos h, hw, hh, if_true]
  split <;> first | rfl | (split <;> rfl)

/-- Witness for `Rect.insertChecked_total` at a concrete fitting input. -/
theorem Rect.insertChecked_total_witness :
    Rect.insertChecked ⟨1, 1, ⟨5, 5⟩⟩ ⟨2, 3⟩ = some (Rect.insert ⟨1, 1, ⟨5, 5⟩⟩ ⟨2, 3⟩) :=
  Rect.insertChecked_total ⟨1, 1, ⟨5, 5⟩⟩ ⟨2, 3⟩ (by decide)

/-- `Atlas` from `src/atlas.rs`: the placement map and the bounding size.
The `HashMap` is modelled as an association list with unique keys. -/
structure Atlas where
  textures : List (String × Rect)
  size : Size
deriving DecidableEq, Repr

/-- `AtlasBuilder` from `src/atlas.rs`: the free-space tracker (a vector,
most recent push at the end) and the placement map. -/
structure AtlasBuilder where
  empty_spaces : List Rect
  textures : List (String × Rect)
deriving DecidableEq, Repr

/-- `AtlasBuilder::new`: one free rectangle covering the whole canvas. -/
def AtlasBuilder.new (width height : Nat) : AtlasBuilder :=
  ⟨[⟨0, 0, ⟨width, height⟩⟩], []⟩

/-- `HashMap::insert` on the association-list model: remove any existing
binding of the key and append the new one (last write wins). -/
def mapInsert (m : List (String × Rect)) (k : String) (v : Rect) :
    List (String × Rect) :=
  m.filter (fun p => p.1 != k) ++ [(k, v)]

/-- The loop body of `AtlasBuilder::add_rect`: walk the given list of free
rectangles front to back (the caller passes `empty_spaces.reverse`, so this
is the Rust `iter_mut().rev()` walk), mutate the first rectangle whose
`insert` succeeds in place, and return the placed rectangle, the optional
leftover and the updated list.  When `insert` fails it returns its receiver
unchanged (the `else` branch of `Rect.insert` is `(self, none)`), so the
walk keeps the original rectangle. -/
def tryInsertFirst (size : Size) : List Rect → Option (Rect × Option Rect × List Rect)
  | [] => none
  | r :: rs =>
    match r.insert size with
    | (r', some (placed, lo)) => some (placed, lo, r' :: rs)
    | (_, none) =>
      match tryInsertFirst size rs with
      | some (placed, lo, rs') => some (placed, lo, r :: rs')
      | none => none

/-- `AtlasBuilder::add_rect`, state-passing: the `Bool` is `true` for
`Some(())` and `false` for `None`; on failure nothing was mutated, so the
builder is returned unchanged.  The leftover rectangle, when produced, is
pushed onto the end of `empty_spaces`. -/
def AtlasBuilder.add_rect (b : AtlasBuilder) (name : String) (size : Size) :
    AtlasBuilder × Bool :=
  match tryInsertFirst size b.empty_spaces.reverse with
  | some (placed, lo, rev') =>
      ({ empty_spaces := rev'.reverse ++ lo.toList,
         textures := mapInsert b.textures name placed }, true)
  | none => (b, false)

/-- `AtlasBuilder::min_bounding_rect`: fold `Size.max` over `bound_size` of
every placed rectangle, starting from `Size.zero`.  Rust folds over
`HashMap::values` in unspecified order; the fold is invariant under
permutation of the entries since `Size.max` is right-commutative. -/
def AtlasBuilder.min_bounding_rect (b : AtlasBuilder) : Size :=
  (b.textures.map fun p => p.2.bound_size).foldl Size.max Size.zero

/-- `AtlasBuilder::get_map`: consume the builder into an `Atlas`. -/
def AtlasBuilder.get_map (b : AtlasBuilder) : Atlas :=
  ⟨b.textures, b.min_bounding_rect⟩

/-- Stable descending insertion by the `u32` sort key `Size.area32`: the
element `x` is placed before the first element whose key is not greater
than `x`'s, so earlier input elements precede equal-key later ones. -/
def insertByArea (x : String × Size) : List (String × Size) → List (String × Size)
  | [] => [x]
  | y :: ys =>
    if Size.area32 x.2 < Size.area32 y.2 then y :: insertByArea x ys
    else x :: y :: ys

/-- The sort performed by `AtlasBuilder::build`:
`data.sort_by_key(|(_name, size)| Reverse(size.height * size.width))` is a
stable sort, descending in the wrapped `u32` key; a stable sort is
determined extensionally by its key, so it is embedded as stable insertion
sort, with the characterising properties (permutation, descending order,
stability) proved below. -/
def sortImages : List (String × Size) → List (String × Size)
  | [] => []
  | x :: xs => insertByArea x (sortImages xs)

/-- The placement loop of `AtlasBuilder::build`: `self.add_rect(name, size)?`
stops at the first failure, leaving the builder in its partially-filled
state. -/
def buildLoop (b : AtlasBuilder) : List (String × Size) → AtlasBuilder × Bool
  | [] => (b, true)
  | (name, size) :: rest =>
    match b.add_rect name size with
    | (b', true) => buildLoop b' rest
    | (b', false) => (b', false)

/-- `AtlasBuilder::build`: sort, then place each image in order. -/
def AtlasBuilder.build (b : AtlasBuilder) (images : List (String × Size)) :
    AtlasBuilder × Bool :=
  buildLoop b (sortImages images)

instance : RightCommutative Size.max :=
  ⟨fun b a₁ a₂ => by
    simp only [Size.max, Size.mk.injEq, Nat.max_def]
    constructor <;> (split_ifs <;> omega)⟩

/-- C6: `min_bounding_rect` is the fold of `bound_size` over all placed
rectangles with component-wise `Size.max`, starting from `{0,0}`; it is
`{0,0}` when nothing has been placed; the `Atlas` produced by `get_map`
carries this value as its `size`; and the fold does not depend on the
order of the placement-map entries (so the unordered `HashMap` iteration
is well modelled). -/
theorem AtlasBuilder.min_bounding_rect_spec (b : AtlasBuilder) :
    b.min_bounding_rect =
      ((b.textures.map Prod.snd).map Rect.bound_size).foldl Size.max Size.zero ∧
    (b.textures = [] → b.min_bounding_rect = Size.zero) ∧
    b.get_map.size = b.min_bounding_rect ∧
    (∀ ts : List (String × Rect), List.Perm ts b.textures →
      AtlasBuilder.min_bounding_rect ⟨b.empty_spaces, ts⟩ = b.min_bounding_rect) := by
  refine ⟨?_, ?_, rfl, ?_⟩
  · simp [AtlasBuilder.min_bounding_rect, List.map_map, Function.comp_def]
  · intro h
    simp [AtlasBuilder.min_bounding_rect, h]
  · intro ts hp
    show (ts.map fun p => p.2.bound_size).foldl Size.max Size.zero =
      (b.textures.map fun p => p.2.bound_size).foldl Size.max Size.zero
    refine (hp.map fun p => p.2.bound_size).foldl_eq' ?_ Size.zero
    intro x _ y _ z
    exact RightCommutative.right_comm z x y

/-- Witness for `AtlasBuilder.min_bounding_rect_spec`: an empty builder has
bounding size `{0,0}`. -/
theorem AtlasBuilder.min_bounding_rect_spec_witness :
    AtlasBuilder.min_bounding_rect ⟨[], []⟩ = Size.zero :=
  (AtlasBuilder.min_bounding_rect_spec ⟨[], []⟩).2.1 rfl

/-- C8 counterexample: the size `{0, 5}` has a zero dimension but does not
fit in `{10, 3}` per `fit_in`, and a placed rectangle of size `{0, 5}`
does contribute to the bounding box (it raises it from `{0,0}` to `{0,5}`). -/
theorem Size.zero_dim_cex :
    Size.fit_in ⟨0, 5⟩ ⟨10, 3⟩ = false ∧
    AtlasBuilder.min_bounding_rect ⟨[], [("x", ⟨0, 0, ⟨0, 5⟩⟩)]⟩ ≠ Size.zero := by
  decide

/-- C8 amended: a size with BOTH dimensions zero fits in every size, and a
placed rectangle whose bound corner `{left+width, top+height}` is `{0,0}`
(a zero-size rectangle at the origin) contributes nothing to
`min_bounding_rect`; a rectangle with only one zero dimension need not fit
and can still contribute its other extent. -/
theorem Size.zero_size_spec :
    (∀ s : Size, s.width = 0 → s.height = 0 → ∀ t : Size, s.fit_in t = true) ∧
    (∀ (es : List Rect) (ts : List (String × Rect)) (n : String) (r : Rect),
      r.bound_size = Size.zero →
      AtlasBuilder.min_bounding_rect ⟨es, (n, r) :: ts⟩ =
        AtlasBuilder.min_bounding_rect ⟨es, ts⟩) := by
  constructor
  · intro s h1 h2 t
    simp [Size.fit_in_iff, h1, h2]
  · intro es ts n r hr
    have hz : Size.max Size.zero Size.zero = Size.zero := rfl
    simp [AtlasBuilder.min_bounding_rect, hr, hz]

/-- Witness for `Size.zero_size_spec` at concrete inputs. -/
theorem Size.zero_size_spec_witness :
    Size.fit_in ⟨0, 0⟩ ⟨10, 3⟩ = true ∧
    AtlasBuilder.min_bounding_rect ⟨[], [("x", ⟨0, 0, ⟨0, 0⟩⟩)]⟩ =
      AtlasBuilder.min_bounding_rect ⟨[], []⟩ :=
  ⟨Size.zero_size_spec.1 ⟨0, 0⟩ rfl rfl ⟨10, 3⟩,
   Size.zero_size_spec.2 [] [] "x" ⟨0, 0, ⟨0, 0⟩⟩ (by decide)⟩

/-- `insertByArea` inserts its element: the result is a permutation of
`x :: l`. -/
theorem insertByArea_perm (x : String × Size) (l : List (String × Size)) :
    List.Perm (insertByArea x l) (x :: l) := by
  induction l with
  | nil => exact List.Perm.refl _
  | cons y ys ih =>
    rw [insertByArea]
    split
    · exact (ih.cons y).trans (List.Perm.swap x y ys)
    · exact List.Perm.refl _

/-- `insertByArea` preserves descending order in the `u32` key. -/
theorem insertByArea_pairwise (x : String × Size) (l : List (String × Size))
    (h : l.Pairwise fun p q => Size.area32 q.2 ≤ Size.area32 p.2) :
    (insertByArea x l).Pairwise fun p q => Size.area32 q.2 ≤ Size.area32 p.2 := by
  induction l with
  | nil => simp [insertByArea]
  | cons y ys ih =>
    rw [insertByArea]
    rw [List.pairwise_cons] at h
    obtain ⟨hy, hys⟩ := h
    split
    · next hlt =>
      rw [List.pairwise_cons]
      refine ⟨?_, ih hys⟩
      intro a ha
      rcases List.mem_cons.1 ((insertByArea_perm x ys).mem_iff.1 ha) with rfl | hmem
      · exact Nat.le_of_lt hlt
      · exact hy a hmem
    · next hge =>
      rw [List.pairwise_cons]
      refine ⟨?_, List.pairwise_cons.2 ⟨hy, hys⟩⟩
      intro a ha
      rcases List.mem_cons.1 ha with rfl | hmem
      · omega
      · have h1 := hy a hmem
        omega

/-- Stability, key case: inserting an element of key `k` puts it in front
of every key-`k` element already present (the elements it jumps over all
have strictly greater keys). -/
theorem insertByArea_filter_eq (x : String × Size) (l : List (String × Size)) (k : Nat)
    (hk : Size.area32 x.2 = k) :
    (insertByArea x l).filter (fun p => decide (Size.area32 p.2 = k)) =
      x :: l.filter (fun p => decide (Size.area32 p.2 = k)) := by
  induction l with
  | nil => simp [insertByArea, hk]
  | cons y ys ih =>
    rw [insertByArea]
    split
    · next hlt =>
      have hy : ¬ (Size.area32 y.2 = k) := by omega
      simp [List.filter_cons, hy, ih]
    · simp [List.filter_cons, hk]

/-- Stability, other case: inserting an element of a different key leaves
the key-`k` subsequence unchanged. -/
theorem insertByArea_filter_ne (x : String × Size) (l : List (String × Size)) (k : Nat)
    (hk : ¬ (Size.area32 x.2 = k)) :
    (insertByArea x l).filter (fun p => decide (Size.area32 p.2 = k)) =
      l.filter (fun p => decide (Size.area32 p.2 = k)) := by
  induction l with
  | nil => simp [insertByArea, hk]
  | cons y ys ih =>
    rw [insertByArea]
    split
    · simp [List.filter_cons, ih]
    · simp [List.filter_cons, hk]

/-- `sortImages` is a permutation of its input. -/
theorem sortImages_perm (l : List (String × Size)) : List.Perm (sortImages l) l := by
  induction l with
  | nil => exact List.Perm.refl _
  | cons x xs ih =>
    rw [sortImages]
    exact (insertByArea_perm x (sortImages xs)).trans (ih.cons x)

/-- `sortImages` sorts descending in the `u32` key. -/
theorem sortImages_sorted (l : List (String × Size)) :
    (sortImages l).Pairwise fun p q => Size.area32 q.2 ≤ Size.area32 p.2 := by
  induction l with
  | nil => exact List.Pairwise.nil
  | cons x xs ih => exact insertByArea_pairwise x _ ih

/-- `sortImages` is stable: the subsequence of each key class is exactly
the input's subsequence of that class. -/
theorem sortImages_filter (l : List (String × Size)) (k : Nat) :
    (sortImages l).filter (fun p => decide (Size.area32 p.2 = k)) =
      l.filter (fun p => decide (Size.area32 p.2 = k)) := by
  induction l with
  | nil => rfl
  | cons x xs ih =>
    rw [sortImages]
    by_cases hk : Size.area32 x.2 = k
    · rw [insertByArea_filter_eq x _ k hk, ih, List.filter_cons]
      simp [hk]
    · rw [insertByArea_filter_ne x _ k hk, ih, List.filter_cons]
      simp [hk]

/-- A failed `add_rect` returns the builder unchanged with flag `false`. -/
theorem add_rect_false (c : AtlasBuilder) (n : String) (s : Size)
    (h : (c.add_rect n s).2 = false) : c.add_rect n s = (c, false) := by
  rcases htry : tryInsertFirst s c.empty_spaces.reverse with _ | ⟨placed, lo, rev'⟩
  · simp only [AtlasBuilder.add_rect, htry]
  · simp [AtlasBuilder.add_rect, htry] at h

/-- C4 counterexample: the Rust sort key is the `u32` product
`size.height * size.width`, which wraps modulo `2^32`; for the image sizes
`65536×65536` (true area `2^32`, wrapped key `0`) and `2×2` (area 4) the
build's processing order is NOT descending by area `width*height`: the
smaller-area image comes first. -/
theorem AtlasBuilder.build_sort_area_cex :
    Size.area ⟨65536, 65536⟩ > Size.area ⟨2, 2⟩ ∧
    sortImages [("a", ⟨65536, 65536⟩), ("b", ⟨2, 2⟩)] =
      [("b", ⟨2, 2⟩), ("a", ⟨65536, 65536⟩)] ∧
    ¬ ((sortImages [("a", ⟨65536, 65536⟩), ("b", ⟨2, 2⟩)]).Pairwise
        fun p q => Size.area q.2 ≤ Size.area p.2) := by
  decide

/-- C4 amended: `build` first stably sorts the input by the wrapped `u32`
key `size.height * size.width % 2^32` in descending order (equal to
area-descending whenever every product is below `2^32`; pairs of equal key
retain their relative input order), then attempts placement in that order,
and on the first placement failure returns failure immediately without
attempting further images, leaving the already-placed images recorded in
the returned builder. -/
theorem AtlasBuilder.build_spec (b : AtlasBuilder) (images : List (String × Size)) :
    AtlasBuilder.build b images = buildLoop b (sortImages images) ∧
    List.Perm (sortImages images) images ∧
    ((sortImages images).Pairwise fun p q => Size.area32 q.2 ≤ Size.area32 p.2) ∧
    (∀ k : Nat, (sortImages images).filter (fun p => decide (Size.area32 p.2 = k)) =
      images.filter (fun p => decide (Size.area32 p.2 = k))) ∧
    (∀ (c : AtlasBuilder) (n : String) (s : Size) (rest : List (String × Size)),
      (c.add_rect n s).2 = false → buildLoop c ((n, s) :: rest) = (c, false)) := by
  refine ⟨rfl, sortImages_perm images, sortImages_sorted images, sortImages_filter images, ?_⟩
  intro c n s rest hf
  simp only [buildLoop, add_rect_false c n s hf]

/-- Witness for `AtlasBuilder.build_spec`: a failing first placement stops
the build immediately, with the builder unchanged. -/
theorem AtlasBuilder.build_spec_witness :
    (AtlasBuilder.add_rect (AtlasBuilder.new 1 1) "a" ⟨2, 2⟩).2 = false ∧
    buildLoop (AtlasBuilder.new 1 1) [("a", ⟨2, 2⟩), ("b", ⟨1, 1⟩)] =
      (AtlasBuilder.new 1 1, false) :=
  ⟨by decide, (AtlasBuilder.build_spec (AtlasBuilder.new 1 1) []).2.2.2.2
      (AtlasBuilder.new 1 1) "a" ⟨2, 2⟩ [("b", ⟨1, 1⟩)] (by decide)⟩

/-- A non-fitting size leaves the rectangle unchanged and yields `none`
(the `else` branch of `Rect.insert`). -/
theorem Rect.insert_not_fit (r : Rect) (s : Size) (h : s.fit_in r.size = false) :
    r.insert s = (r, none) := by
  simp [Rect.insert, h]

/-- `Rect.insert` yields `none` exactly on non-fitting sizes (helper form
of the failure condition, shared by the packer lemmas). -/
theorem Rect.insert_snd_none (r : Rect) (s : Size) :
    (r.insert s).2 = none ↔ s.fit_in r.size = false := by
  rw [Rect.insert]
  split
  · next hfit =>
    constructor
    · intro hnone
      split at hnone <;> simp_all
      split at hnone <;> simp_all
    · intro hfalse
      simp_all
  · next hfit =>
    simp_all

/-- Lookup in the association-list model of the placement map. -/
def mapLookup (m : List (String × Rect)) (k : String) : Option Rect :=
  match m with
  | [] => none
  | p :: rest => if p.1 = k then some p.2 else mapLookup rest k

/-- `mapInsert` binds the inserted key to the new value (overwrite). -/
theorem mapInsert_lookup_self (m : List (String × Rect)) (k : String) (v : Rect) :
    mapLookup (mapInsert m k v) k = some v := by
  induction m with
  | nil => simp [mapInsert, mapLookup]
  | cons p ps ih =>
    rw [mapInsert, List.filter_cons]
    split
    · next hp =>
      have hne : p.1 ≠ k := by simpa using hp
      rw [List.cons_append]
      show mapLookup (p :: mapInsert ps k v) k = some v
      simp only [mapLookup]
      rw [if_neg hne]
      exact ih
    · exact ih

/-- `mapInsert` leaves every other key's binding unchanged. -/
theorem mapInsert_lookup_other (m : List (String × Rect)) (k k' : String) (v : Rect)
    (h : k' ≠ k) :
    mapLookup (mapInsert m k v) k' = mapLookup m k' := by
  induction m with
  | nil =>
    simp only [mapInsert, List.filter_nil, List.nil_append, mapLookup]
    rw [if_neg (fun hc => h hc.symm)]
  | cons p ps ih =>
    rw [mapInsert, List.filter_cons]
    split
    · rw [List.cons_append]
      show mapLookup (p :: mapInsert ps k v) k' = mapLookup (p :: ps) k'
      simp only [mapLookup]
      split
      · rfl
      · exact ih
    · next hp =>
      have hpk : p.1 = k := by simpa using hp
      show mapLookup (mapInsert ps k v) k' = mapLookup (p :: ps) k'
      simp only [mapLookup]
      rw [if_neg (by rw [hpk]; exact fun hc => h hc.symm)]
      exact ih

/-- The walk fails exactly when no rectangle in the list admits the size. -/
theorem tryInsertFirst_none_iff (s : Size) (l : List Rect) :
    tryInsertFirst s l = none ↔ ∀ r ∈ l, s.fit_in r.size = false := by
  induction l with
  | nil => simp [tryInsertFirst]
  | cons r rs ih =>
    simp only [tryInsertFirst]
    rcases hr : r.insert s with ⟨r', res⟩
    rcases res with _ | ⟨placed, lo⟩
    · have hfit : s.fit_in r.size = false := (Rect.insert_snd_none r s).1 (by rw [hr])
      rcases htry : tryInsertFirst s rs with _ | ⟨p, lo2, rs'⟩
      · simp [htry, hfit]
        exact ih.1 htry
      · have : ¬ ∀ x ∈ rs, s.fit_in x.size = false := by
          intro hall
          rw [ih.2 hall] at htry
          exact Option.noConfusion htry
        simp [htry, this]
    · have hfit : ¬ (s.fit_in r.size = false) := by
        intro hf
        rw [Rect.insert_not_fit r s hf] at hr
        simp at hr
      simp [hfit]

/-- Walking a list whose prefix has no fitting rectangle reaches the first
fitting rectangle, replaces it in place by its shrunk form and returns the
placed and leftover rectangles. -/
theorem tryInsertFirst_append (s : Size) (a : List Rect) (r r' : Rect) (z : List Rect)
    (placed : Rect) (lo : Option Rect)
    (ha : ∀ x ∈ a, s.fit_in x.size = false)
    (hr : r.insert s = (r', some (placed, lo))) :
    tryInsertFirst s (a ++ r :: z) = some (placed, lo, a ++ r' :: z) := by
  induction a with
  | nil =>
    simp only [List.nil_append, tryInsertFirst, hr]
  | cons x xs ih =>
    have hx : x.insert s = (x, none) := Rect.insert_not_fit x s (ha x (by simp))
    have ih' := ih fun y hy => ha y (by simp [hy])
    simp only [List.cons_append, tryInsertFirst, List.append_eq, hx, ih']

/-- Conversely, a successful walk decomposes the list into a non-fitting
prefix, the first fitting rectangle (replaced in place) and the untouched
suffix. -/
theorem tryInsertFirst_some (s : Size) (l : List Rect) (placed : Rect)
    (lo : Option Rect) (l' : List Rect)
    (h : tryInsertFirst s l = some (placed, lo, l')) :
    ∃ a r r' z, l = a ++ r :: z ∧ l' = a ++ r' :: z ∧
      (∀ x ∈ a, s.fit_in x.size = false) ∧
      r.insert s = (r', some (placed, lo)) := by
  induction l generalizing placed lo l' with
  | nil => simp [tryInsertFirst] at h
  | cons r rs ih =>
    simp only [tryInsertFirst] at h
    rcases hr : r.insert s with ⟨r', res⟩
    rw [hr] at h
    rcases res with _ | ⟨p2, lo2⟩
    · have hfit : s.fit_in r.size = false := (Rect.insert_snd_none r s).1 (by rw [hr])
      rcases htry : tryInsertFirst s rs with _ | ⟨⟨p3, lo3, rs'⟩⟩
      · rw [htry] at h
        exact absurd h (by simp)
      · rw [htry] at h
        simp only [Option.some.injEq, Prod.mk.injEq] at h
        obtain ⟨hp, hlo, hl'⟩ := h
        subst hp; subst hlo; subst hl'
        obtain ⟨a, rr, rr', z, h1, h2, h3, h4⟩ := ih p3 lo3 rs' htry
        refine ⟨r :: a, rr, rr', z, ?_, ?_, ?_, h4⟩
        · rw [List.cons_append, h1]
        · rw [List.cons_append, h2]
        · intro x hx
          rcases List.mem_cons.1 hx with rfl | hmem
          · exact hfit
          · exact h3 x hmem
    · simp only [Option.some.injEq, Prod.mk.injEq] at h
      obtain ⟨hp, hlo, hl'⟩ := h
      subst hp; subst hlo; subst hl'
      exact ⟨[], r, r', rs, rfl, rfl, by simp, hr⟩

/-- C5: `add_rect` walks the free-space tracker in reverse insertion order
(most recently appended first: the elements after the chosen rectangle in
the tracker are exactly the ones tried and rejected before it), places the
image into the first rectangle whose split succeeds (replacing it in place
by its shrunk form), appends the leftover (if any) to the end of the
tracker, records `identifier -> placed` in the placement map overwriting
any existing binding of that identifier while leaving all other bindings
unchanged, and fails with the builder unchanged exactly when no free
rectangle admits the image. -/
theorem AtlasBuilder.add_rect_spec (b : AtlasBuilder) (n : String) (s : Size) :
    ((b.add_rect n s).2 = false ↔ ∀ r ∈ b.empty_spaces, s.fit_in r.size = false) ∧
    ((b.add_rect n s).2 = false → (b.add_rect n s).1 = b) ∧
    (∀ (l₁ : List Rect) (r : Rect) (l₂ : List Rect) (placed r' : Rect) (lo : Option Rect),
      b.empty_spaces = l₁ ++ r :: l₂ →
      (∀ x ∈ l₂, s.fit_in x.size = false) →
      r.insert s = (r', some (placed, lo)) →
      b.add_rect n s =
        ({ empty_spaces := l₁ ++ r' :: (l₂ ++ lo.toList),
           textures := mapInsert b.textures n placed }, true)) ∧
    (∀ v : Rect, mapLookup (mapInsert b.textures n v) n = some v) ∧
    (∀ (v : Rect) (k : String), k ≠ n →
      mapLookup (mapInsert b.textures n v) k = mapLookup b.textures k) := by
  refine ⟨?_, ?_, ?_, fun v => mapInsert_lookup_self b.textures n v,
    fun v k hk => mapInsert_lookup_other b.textures n k v hk⟩
  · have hiff : (b.add_rect n s).2 = false ↔
        tryInsertFirst s b.empty_spaces.reverse = none := by
      rcases htry : tryInsertFirst s b.empty_spaces.reverse with _ | ⟨p, lo, rev'⟩ <;>
        simp [AtlasBuilder.add_rect, htry]
    rw [hiff, tryInsertFirst_none_iff]
    constructor
    · intro h r hr
      exact h r (List.mem_reverse.2 hr)
    · intro h r hr
      exact h r (List.mem_reverse.1 hr)
  · intro hf
    rw [add_rect_false b n s hf]
  · intro l₁ r l₂ placed r' lo hsp hl₂ hins
    have hrev : b.empty_spaces.reverse = l₂.reverse ++ r :: l₁.reverse := by
      rw [hsp]
      simp [List.reverse_append]
    have htry := tryInsertFirst_append s l₂.reverse r r' l₁.reverse placed lo
      (fun x hx => hl₂ x (List.mem_reverse.1 hx)) hins
    rw [AtlasBuilder.add_rect, hrev, htry]
    simp [List.reverse_append]

/-- Witness for `AtlasBuilder.add_rect_spec`: the first image placed into a
fresh builder splits the single canvas rectangle, appending the leftover. -/
theorem AtlasBuilder.add_rect_spec_witness :
    AtlasBuilder.add_rect (AtlasBuilder.new 10 10) "a" ⟨3, 4⟩ =
      ({ empty_spaces := [⟨0, 4, ⟨10, 6⟩⟩, ⟨3, 0, ⟨7, 4⟩⟩],
         textures := [("a", ⟨0, 0, ⟨3, 4⟩⟩)] }, true) := by
  have h := (AtlasBuilder.add_rect_spec (AtlasBuilder.new 10 10) "a" ⟨3, 4⟩).2.2.1
    [] ⟨0, 0, ⟨10, 10⟩⟩ [] ⟨0, 0, ⟨3, 4⟩⟩ ⟨0, 4, ⟨10, 6⟩⟩ (some ⟨3, 0, ⟨7, 4⟩⟩)
    rfl (by simp) (by decide)
  simpa using h

/-- The unit cell `(x, y)` of the integer grid lies inside the rectangle.
Two rectangles with integer coordinates have overlapping interiors exactly
when they share such a cell. -/
def Rect.Mem (r : Rect) (x y : Nat) : Prop :=
  r.left ≤ x ∧ x < r.left + r.size.width ∧ r.top ≤ y ∧ y < r.top + r.size.height

/-- Interior-disjointness of two rectangles: no common unit cell. -/
def Rect.Disj (a b : Rect) : Prop := ∀ x y, ¬ (a.Mem x y ∧ b.Mem x y)

/-- `a` is contained in `b`. -/
def Rect.SubRect (a b : Rect) : Prop := ∀ x y, a.Mem x y → b.Mem x y

/-- Interior-disjointness is symmetric. -/
theorem Rect.disj_symm {a b : Rect} (h : a.Disj b) : b.Disj a :=
  fun x y hc => h x y ⟨hc.2, hc.1⟩

/-- A sub-rectangle of `r` is disjoint from anything `r` is disjoint from. -/
theorem Rect.disj_of_subrect_left {a r c : Rect} (hsub : a.SubRect r)
    (h : r.Disj c) : a.Disj c :=
  fun x y hc => h x y ⟨hsub x y hc.1, hc.2⟩

/-- Symmetric variant of `Rect.disj_of_subrect_left`. -/
theorem Rect.disj_of_subrect_right {a r c : Rect} (hsub : a.SubRect r)
    (h : c.Disj r) : c.Disj a :=
  fun x y hc => h x y ⟨hc.1, hsub x y hc.2⟩

/-- Geometry of a successful split: the placed rectangle, the shrunk space
and the leftover all lie inside the original space and are pairwise
interior-disjoint. -/
theorem Rect.insert_geom (space r' placed : Rect) (lo : Option Rect) (s : Size)
    (h : space.insert s = (r', some (placed, lo))) :
    placed.SubRect space ∧ r'.SubRect space ∧ placed.Disj r' ∧
    ∀ l, lo = some l → l.SubRect space ∧ placed.Disj l ∧ l.Disj r' := by
  by_cases hfit : s.fit_in space.size = true
  · obtain ⟨hw, hh⟩ := (Size.fit_in_iff _ _).1 hfit
    by_cases hweq : s.width = space.size.width
    · rw [Rect.insert, if_pos hfit, if_pos hweq] at h
      have h' := h.symm
      simp only [Prod.mk.injEq, Option.some.injEq] at h'
      obtain ⟨h1, h2, h3⟩ := h'
      subst h1; subst h2; subst h3
      refine ⟨?_, ?_, ?_, ?_⟩
      · intro x y hxy
        simp only [Rect.Mem] at hxy ⊢
        omega
      · intro x y hxy
        simp only [Rect.Mem] at hxy ⊢
        omega
      · intro x y hc
        simp only [Rect.Mem] at hc
        omega
      · intro l hl
        exact absurd hl (by simp)
    · by_cases hheq : s.height = space.size.height
      · rw [Rect.insert, if_pos hfit, if_neg hweq, if_pos hheq] at h
        have h' := h.symm
        simp only [Prod.mk.injEq, Option.some.injEq] at h'
        obtain ⟨h1, h2, h3⟩ := h'
        subst h1; subst h2; subst h3
        refine ⟨?_, ?_, ?_, ?_⟩
        · intro x y hxy
          simp only [Rect.Mem] at hxy ⊢
          omega
        · intro x y hxy
          simp only [Rect.Mem] at hxy ⊢
          omega
        · intro x y hc
          simp only [Rect.Mem] at hc
          omega
        · intro l hl
          exact absurd hl (by simp)
      · rw [Rect.insert, if_pos hfit, if_neg hweq, if_neg hheq] at h
        have h' := h.symm
        simp only [Prod.mk.injEq, Option.some.injEq] at h'
        obtain ⟨h1, h2, h3⟩ := h'
        subst h1; subst h2; subst h3
        refine ⟨?_, ?_, ?_, ?_⟩
        · intro x y hxy
          simp only [Rect.Mem] at hxy ⊢
          omega
        · intro x y hxy
          simp only [Rect.Mem] at hxy ⊢
          omega
        · intro x y hc
          simp only [Rect.Mem] at hc
          omega
        · intro l hl
          have hl' := Option.some.inj hl
          subst hl'
          refine ⟨?_, ?_, ?_⟩
          · intro x y hxy
            simp only [Rect.Mem] at hxy ⊢
            omega
          · intro x y hc
            simp only [Rect.Mem] at hc
            omega
          · intro x y hc
            simp only [Rect.Mem] at hc
            omega
  · rw [Rect.insert, if_neg hfit] at h
    simp at h

/-- Invariant of the packer state: placed rectangles are pairwise
interior-disjoint, free rectangles are pairwise interior-disjoint, and
every placed rectangle is interior-disjoint from every free rectangle. -/
def PackInv (b : AtlasBuilder) : Prop :=
  (b.textures.map Prod.snd).Pairwise Rect.Disj ∧
  b.empty_spaces.Pairwise Rect.Disj ∧
  ∀ v ∈ b.textures.map Prod.snd, ∀ sp ∈ b.empty_spaces, Rect.Disj v sp

/-- A fresh builder satisfies the invariant. -/
theorem new_packInv (w h : Nat) : PackInv (AtlasBuilder.new w h) := by
  refine ⟨List.Pairwise.nil, List.pairwise_singleton _ _, ?_⟩
  intro v hv
  simp [AtlasBuilder.new] at hv

/-- `add_rect` preserves the packer invariant. -/
theorem add_rect_packInv (b : AtlasBuilder) (n : String) (s : Size)
    (hinv : PackInv b) : PackInv ((b.add_rect n s).1) := by
  rcases htry : tryInsertFirst s b.empty_spaces.reverse with _ | ⟨placed, lo, rev'⟩
  · simp only [AtlasBuilder.add_rect, htry]
    exact hinv
  · obtain ⟨a, r, r', z, h1, h2, h3, h4⟩ := tryInsertFirst_some s _ placed lo rev' htry
    have hSP : b.empty_spaces = z.reverse ++ r :: a.reverse := by
      have hc := congrArg List.reverse h1
      simpa [List.reverse_append] using hc
    have hRev' : rev'.reverse = z.reverse ++ r' :: a.reverse := by
      rw [h2]
      simp [List.reverse_append]
    obtain ⟨hV, hS, hVS⟩ := hinv
    rw [hSP, List.pairwise_append, List.pairwise_cons] at hS
    obtain ⟨hz, ⟨hr_a, ha⟩, hz_ra⟩ := hS
    obtain ⟨hp_sub, hr'_sub, hpr', hlo⟩ := Rect.insert_geom r r' placed lo s h4
    have hrS : r ∈ b.empty_spaces := by
      rw [hSP]
      exact List.mem_append_right _ (List.mem_cons_self _ _)
    have hmemS : ∀ sp, sp ∈ z.reverse ∨ sp = r ∨ sp ∈ a.reverse → sp ∈ b.empty_spaces := by
      intro sp hsp
      rw [hSP]
      rcases hsp with hm | hm | hm
      · exact List.mem_append_left _ hm
      · subst hm
        exact List.mem_append_right _ (List.mem_cons_self _ _)
      · exact List.mem_append_right _ (List.mem_cons_of_mem _ hm)
    have hdisj_r_z : ∀ x ∈ z.reverse, Rect.Disj r x :=
      fun x hx => Rect.disj_symm (hz_ra x hx r (List.mem_cons_self _ _))
    have hdisj_V_r : ∀ v ∈ b.textures.map Prod.snd, Rect.Disj v r :=
      fun v hv => hVS v hv r hrS
    have hFsub : List.Sublist ((b.textures.filter fun p => p.1 != n).map Prod.snd)
        (b.textures.map Prod.snd) := (List.filter_sublist _).map Prod.snd
    simp only [AtlasBuilder.add_rect, htry]
    rw [hRev']
    refine ⟨?_, ?_, ?_⟩
    · show ((mapInsert b.textures n placed).map Prod.snd).Pairwise Rect.Disj
      rw [mapInsert, List.map_append, List.pairwise_append]
      refine ⟨List.Pairwise.sublist hFsub hV, List.pairwise_singleton _ _, ?_⟩
      intro f hf p hp
      simp only [List.map_cons, List.map_nil, List.mem_singleton] at hp
      subst hp
      obtain ⟨e, he, rfl⟩ := List.mem_map.1 hf
      have hev : e.2 ∈ b.textures.map Prod.snd :=
        List.mem_map_of_mem Prod.snd (List.mem_of_mem_filter he)
      exact Rect.disj_of_subrect_right hp_sub (hdisj_V_r e.2 hev)
    · show ((z.reverse ++ r' :: a.reverse) ++ lo.toList).Pairwise Rect.Disj
      rw [List.pairwise_append]
      refine ⟨List.pairwise_append.2 ⟨hz, List.pairwise_cons.2 ⟨?_, ha⟩, ?_⟩, ?_, ?_⟩
      · intro x hx
        exact Rect.disj_of_subrect_left hr'_sub (hr_a x hx)
      · intro x hx y hy
        rcases List.mem_cons.1 hy with rfl | hmem
        · exact Rect.disj_symm (Rect.disj_of_subrect_left hr'_sub (hdisj_r_z x hx))
        · exact hz_ra x hx y (List.mem_cons_of_mem _ hmem)
      · rcases lo with _ | l0 <;> simp
      · intro x hx l hl
        rcases lo with _ | l0
        · simp at hl
        · simp only [Option.toList_some, List.mem_singleton] at hl
          subst hl
          obtain ⟨hl_sub, hpl, hlr'⟩ := hlo _ rfl
          rcases List.mem_append.1 hx with hxz | hxr
          · exact Rect.disj_of_subrect_right hl_sub (hz_ra x hxz r (List.mem_cons_self _ _))
          · rcases List.mem_cons.1 hxr with rfl | hxa
            · exact Rect.disj_symm hlr'
            · exact Rect.disj_of_subrect_right hl_sub (Rect.disj_symm (hr_a x hxa))
    · show ∀ v ∈ (mapInsert b.textures n placed).map Prod.snd,
        ∀ sp ∈ (z.reverse ++ r' :: a.reverse) ++ lo.toList, Rect.Disj v sp
      intro v hv sp hsp
      rw [mapInsert, List.map_append] at hv
      rcases List.mem_append.1 hv with hvF | hvP
      · obtain ⟨e, he, rfl⟩ := List.mem_map.1 hvF
        have hev : e.2 ∈ b.textures.map Prod.snd :=
          List.mem_map_of_mem Prod.snd (List.mem_of_mem_filter he)
        rcases List.mem_append.1 hsp with hsp1 | hsplo
        · rcases List.mem_append.1 hsp1 with hspz | hspr
          · exact hVS e.2 hev sp (hmemS sp (Or.inl hspz))
          · rcases List.mem_cons.1 hspr with rfl | hspa
            · exact Rect.disj_of_subrect_right hr'_sub (hdisj_V_r e.2 hev)
            · exact hVS e.2 hev sp (hmemS sp (Or.inr (Or.inr hspa)))
        · rcases lo with _ | l0
          · simp at hsplo
          · simp only [Option.toList_some, List.mem_singleton] at hsplo
            subst hsplo
            obtain ⟨hl_sub, hpl, hlr'⟩ := hlo _ rfl
            exact Rect.disj_of_subrect_right hl_sub (hdisj_V_r e.2 hev)
      · simp only [List.map_cons, List.map_nil, List.mem_singleton] at hvP
        subst hvP
        rcases List.mem_append.1 hsp with hsp1 | hsplo
        · rcases List.mem_append.1 hsp1 with hspz | hspr
          · exact Rect.disj_of_subrect_left hp_sub (hdisj_r_z sp hspz)
          · rcases List.mem_cons.1 hspr with rfl | hspa
            · exact hpr'
            · exact Rect.disj_of_subrect_left hp_sub (hr_a sp hspa)
        · rcases lo with _ | l0
          · simp at hsplo
          · simp only [Option.toList_some, List.mem_singleton] at hsplo
            subst hsplo
            obtain ⟨hl_sub, hpl, hlr'⟩ := hlo _ rfl
            exact hpl

/-- `buildLoop` preserves the packer invariant. -/
theorem buildLoop_packInv (l : List (String × Size)) (b : AtlasBuilder)
    (h : PackInv b) : PackInv ((buildLoop b l).1) := by
  induction l generalizing b with
  | nil => exact h
  | cons p rest ih =>
    rcases p with ⟨n, s⟩
    rcases hr : b.add_rect n s with ⟨b', flag⟩
    have hb' : PackInv b' := by
      have hp := add_rect_packInv b n s h
      rw [hr] at hp
      exact hp
    cases flag
    · simp only [buildLoop, hr]
      exact hb'
    · simp only [buildLoop, hr]
      exact ih b' hb'

/-- C7: after a successful build on a fresh packer, every pair of distinct
rectangles in the resulting placement map has non-overlapping interiors
(`Rect.Disj`: no shared unit cell of the integer grid). -/
theorem AtlasBuilder.build_nonoverlap (w h : Nat) (images : List (String × Size))
    (b' : AtlasBuilder)
    (hb : AtlasBuilder.build (AtlasBuilder.new w h) images = (b', true)) :
    (b'.textures.map Prod.snd).Pairwise Rect.Disj := by
  have hinv := buildLoop_packInv (sortImages images) (AtlasBuilder.new w h) (new_packInv w h)
  have hbl : buildLoop (AtlasBuilder.new w h) (sortImages images) = (b', true) := hb
  rw [hbl] at hinv
  exact hinv.1

/-- Witness for `AtlasBuilder.build_nonoverlap`: the spec's shelf-split
scenario, canvas 10×10 with images 6×4 and 4×4, packs successfully. -/
theorem AtlasBuilder.build_nonoverlap_witness :
    (((AtlasBuilder.build (AtlasBuilder.new 10 10)
        [("a", ⟨6, 4⟩), ("b", ⟨4, 4⟩)]).1.textures.map Prod.snd).Pairwise Rect.Disj) :=
  AtlasBuilder.build_nonoverlap 10 10 [("a", ⟨6, 4⟩), ("b", ⟨4, 4⟩)]
    (AtlasBuilder.build (AtlasBuilder.new 10 10) [("a", ⟨6, 4⟩), ("b", ⟨4, 4⟩)]).1
    (by decide)
